import Mathlib

/-!
Verification of the video-analysis route handler and its client-side
summary derivation.

The embedding follows the source:
* `app/api/analyze-video/route.ts` (the `POST` handler): API-key gate,
  form-field resolution (`video` file vs `videoUrl` string), size checks,
  `fileToDataUrl` (base64 data URL), prompt assembly, upstream status
  check, and the `ReadableStream` relay loop that incrementally decodes
  upstream bytes as UTF-8 and re-encodes them.
* `app/page.tsx` (`handleSubmit`): splitting accumulated model text into
  `summary`/`details` on the first newline, with literal fallback strings.

Bytes are `Nat` values below 256; JS strings are Lean `String`s (code
points); the upstream body is a list of byte chunks followed by either a
normal end or a read error.
-/

set_option maxHeartbeats 2000000
set_option maxRecDepth 8000

deriving instance DecidableEq for Except

namespace VideoOr

/-! ## Form data model

`formData.get(k)` returns a string, a `File`, or `null`; we model the
`video` field value accordingly. A `File` is its byte content plus its
declared content type (`file.type`, `""` when absent). -/

/-- Byte content and declared MIME type of an uploaded `File`. `size` in the
route is the byte length of the content. -/
structure FileModel where
  content : List Nat
  declaredType : String
deriving DecidableEq, Repr

/-- Value of a multipart form field: a plain string or a `File`. -/
inductive FormValue where
  | str (s : String)
  | file (f : FileModel)
deriving DecidableEq, Repr

/-- JS truthiness of `formData.get("video")`: `null` and `""` are falsy, any
`File` object and any non-empty string are truthy. -/
def truthy : Option FormValue → Bool
  | none => false
  | some (.str s) => s ≠ ""
  | some (.file _) => true

/-- Error outcomes of the route handler, one per early-return site. -/
inductive ApiError where
  | serverMisconfigured
  | missingInput
  | emptyFile
  | tooLarge
  | invalidUrl
  | unresolvedInput
deriving DecidableEq, Repr

/-- HTTP status attached to each error response in the route. -/
def ApiError.status : ApiError → Nat
  | .serverMisconfigured => 500
  | .missingInput => 400
  | .emptyFile => 400
  | .tooLarge => 413
  | .invalidUrl => 400
  | .unresolvedInput => 400

/-! ## Base64 (Node `Buffer.toString("base64")`, RFC 4648 alphabet)

`fileToDataUrl` base64-encodes the whole buffer. We embed the standard
encoder and a decoder, and prove the round trip used by claim C6. -/

/-- Character of the standard base64 alphabet for a sextet below 64. -/
def encodeChar (s : Nat) : Char :=
  if s < 26 then Char.ofNat (65 + s)
  else if s < 52 then Char.ofNat (97 + (s - 26))
  else if s < 62 then Char.ofNat (48 + (s - 52))
  else if s = 62 then '+'
  else '/'

/-- Inverse of `encodeChar`: the sextet of an alphabet character, `none` for
characters outside the alphabet (in particular for `'='`). -/
def decodeChar (c : Char) : Option Nat :=
  let n := c.toNat
  if 65 ≤ n ∧ n ≤ 90 then some (n - 65)
  else if 97 ≤ n ∧ n ≤ 122 then some (n - 97 + 26)
  else if 48 ≤ n ∧ n ≤ 57 then some (n - 48 + 52)
  else if n = 43 then some 62
  else if n = 47 then some 63
  else none

/-- Base64 encoding of a byte list: three bytes become four alphabet
characters; a final group of one or two bytes is padded with `'='`. -/
def base64Encode : List Nat → List Char
  | [] => []
  | [b0] =>
      [encodeChar (b0 / 4), encodeChar (b0 % 4 * 16), '=', '=']
  | [b0, b1] =>
      [encodeChar (b0 / 4), encodeChar (b0 % 4 * 16 + b1 / 16),
       encodeChar (b1 % 16 * 4), '=']
  | b0 :: b1 :: b2 :: rest =>
      encodeChar (b0 / 4) :: encodeChar (b0 % 4 * 16 + b1 / 16) ::
      encodeChar (b1 % 16 * 4 + b2 / 64) :: encodeChar (b2 % 64) ::
      base64Encode rest

/-- Base64 decoding: groups of four characters yield three bytes; a final
group padded with one or two `'='` yields two bytes or one. Returns `none`
on characters outside the alphabet or misplaced padding. -/
def base64Decode : List Char → Option (List Nat)
  | [] => some []
  | c0 :: c1 :: c2 :: c3 :: rest =>
      match decodeChar c0, decodeChar c1 with
      | some s0, some s1 =>
          if c2 = '=' then
            if c3 = '=' ∧ rest = [] then some [s0 * 4 + s1 / 16] else none
          else
            match decodeChar c2 with
            | some s2 =>
                if c3 = '=' then
                  if rest = [] then
                    some [s0 * 4 + s1 / 16, s1 % 16 * 16 + s2 / 4]
                  else none
                else
                  match decodeChar c3, base64Decode rest with
                  | some s3, some tail =>
                      some ((s0 * 4 + s1 / 16) :: (s1 % 16 * 16 + s2 / 4) ::
                            (s2 % 4 * 64 + s3) :: tail)
                  | _, _ => none
            | none => none
      | _, _ => none
  | _ => some []

theorem decodeChar_encodeChar : ∀ s : Nat, s < 64 → decodeChar (encodeChar s) = some s := by
  decide

theorem encodeChar_ne_pad : ∀ s : Nat, s < 64 → encodeChar s ≠ '=' := by
  decide

/-- Round trip of the base64 codec on byte lists. -/
theorem base64Decode_base64Encode :
    ∀ l : List Nat, (∀ b ∈ l, b < 256) → base64Decode (base64Encode l) = some l := by
  intro l
  induction l using base64Encode.induct with
  | case1 => intro _; rfl
  | case2 b0 =>
      intro hb
      have h0 : b0 < 256 := hb b0 (by simp)
      simp only [base64Encode, base64Decode,
        decodeChar_encodeChar (b0 / 4) (by omega),
        decodeChar_encodeChar (b0 % 4 * 16) (by omega)]
      simp only [if_pos rfl, and_self, if_true, Option.some.injEq, List.cons.injEq,
        and_true]
      omega
  | case3 b0 b1 =>
      intro hb
      have h0 : b0 < 256 := hb b0 (by simp)
      have h1 : b1 < 256 := hb b1 (by simp)
      have hne2 : encodeChar (b1 % 16 * 4) ≠ '=' := encodeChar_ne_pad _ (by omega)
      simp only [base64Encode, base64Decode,
        decodeChar_encodeChar (b0 / 4) (by omega),
        decodeChar_encodeChar (b0 % 4 * 16 + b1 / 16) (by omega),
        decodeChar_encodeChar (b1 % 16 * 4) (by omega)]
      simp [hne2]
      omega
  | case4 b0 b1 b2 rest ih =>
      intro hb
      have h0 : b0 < 256 := hb b0 (by simp)
      have h1 : b1 < 256 := hb b1 (by simp)
      have h2 : b2 < 256 := hb b2 (by simp)
      have hne2 : encodeChar (b1 % 16 * 4 + b2 / 64) ≠ '=' := encodeChar_ne_pad _ (by omega)
      have hne3 : encodeChar (b2 % 64) ≠ '=' := encodeChar_ne_pad _ (by omega)
      have hrest : base64Decode (base64Encode rest) = some rest :=
        ih (fun b hbr => hb b (by simp [hbr]))
      simp only [base64Encode, base64Decode,
        decodeChar_encodeChar (b0 / 4) (by omega),
        decodeChar_encodeChar (b0 % 4 * 16 + b1 / 16) (by omega),
        decodeChar_encodeChar (b1 % 16 * 4 + b2 / 64) (by omega),
        decodeChar_encodeChar (b2 % 64) (by omega)]
      simp only [hne2, hne3, if_false, hrest, Option.some.injEq, List.cons.injEq,
        and_true]
      refine ⟨by omega, by omega, by omega⟩

/-! ## `fileToDataUrl` and the input-resolution block of `POST` -/

/-- Size ceiling from the route: `100 * 1024 * 1024` bytes. -/
def maxBytes : Nat := 100 * 1024 * 1024

/-- Embedding of `fileToDataUrl`: MIME type is `file.type`, defaulting to
`video/mp4` when empty, and the whole buffer is base64-encoded into
`data:mime;base64,payload`. -/
def fileToDataUrl (f : FileModel) : String :=
  let mime := if f.declaredType = "" then "video/mp4" else f.declaredType
  "data:" ++ mime ++ ";base64," ++ String.mk (base64Encode f.content)

/-- Embedding of the `POST` block that resolves `videoUrl` (lines 34-84):
missing-input gate on JS truthiness of both fields, then the `File` branch
with empty/size checks, then the URL branch with syntactic validation,
then the residual `Unable to resolve video input` guard. `validUrl` stands
for success of the `new URL(urlInput)` constructor, which lives outside
the repository. `urlInput` is the already-trimmed string of the `videoUrl`
field. -/
def resolveVideo (validUrl : String → Bool) (fileInput : Option FormValue)
    (urlInput : String) : Except ApiError String :=
  if ¬ truthy fileInput ∧ urlInput = "" then .error .missingInput
  else
    match fileInput with
    | some (.file f) =>
        if f.content.length = 0 then .error .emptyFile
        else if f.content.length > maxBytes then .error .tooLarge
        else .ok (fileToDataUrl f)
    | _ =>
        if urlInput ≠ "" then
          if validUrl urlInput then .ok urlInput else .error .invalidUrl
        else .error .unresolvedInput

/-! ## Prompt assembly (lines 86-96) -/

/-- Fixed system instruction (`baseInstruction` in the route). -/
def baseInstruction : String :=
  "You are an expert video analysis system. Provide a structured, detailed analysis of the provided video. " ++
  "Include: (1) clear summary, (2) timeline/scene breakdown where relevant with approximate timestamps if inferable, " ++
  "(3) domain-specific insights (e.g., coaching, marketing hooks, storytelling, UX, security), " ++
  "(4) concise bullet-point recommendations."

/-- Text preceding the interpolated focus string in the focus clause. -/
def focusClauseHead : String := " The user has an additional focus: \""

/-- Text following the interpolated focus string in the focus clause. -/
def focusClauseTail : String :=
  "\". Prioritize this focus in your analysis while still covering core observations."

/-- Default suffix used when no focus is provided. -/
def defaultSuffixText : String :=
  " If no additional focus is provided, infer the most valuable insights for a professional audience."

/-- Embedding of `mergedPrompt`: the base instruction plus either the focus
clause (quoting the focus) or the default suffix, chosen by JS truthiness
of the (already trimmed) focus string. -/
def mergedPrompt (focusPrompt : String) : String :=
  baseInstruction ++
    (if focusPrompt ≠ "" then focusClauseHead ++ focusPrompt ++ focusClauseTail
     else defaultSuffixText)

/-! ## Substring occurrence

A small executable substring check, used to state the containment claims
about the assembled prompt. -/

/-- Check that `p` starts the list `l`. -/
def leadsWith : List Char → List Char → Bool
  | [], _ => true
  | _ :: _, [] => false
  | c :: cs, d :: ds => c = d && leadsWith cs ds

/-- Check that `pat` occurs contiguously somewhere in `l`. -/
def hasSub (pat : List Char) : List Char → Bool
  | [] => leadsWith pat []
  | d :: ls => leadsWith pat (d :: ls) || hasSub pat ls

/-- String-level wrapper: does `s` contain `pat` as a substring? -/
def containsStr (s pat : String) : Bool := hasSub pat.data s.data

theorem leadsWith_iff (pat l : List Char) :
    leadsWith pat l = true ↔ ∃ t, l = pat ++ t := by
  induction pat generalizing l with
  | nil => simp [leadsWith]
  | cons c cs ih =>
      cases l with
      | nil => simp [leadsWith]
      | cons d ds =>
          simp only [leadsWith, Bool.and_eq_true, decide_eq_true_eq, ih,
            List.cons_append, List.cons.injEq]
          constructor
          · rintro ⟨rfl, t, rfl⟩; exact ⟨t, rfl, rfl⟩
          · rintro ⟨t, rfl, rfl⟩; exact ⟨rfl, t, rfl⟩

theorem hasSub_iff (pat l : List Char) :
    hasSub pat l = true ↔ ∃ s t, l = s ++ pat ++ t := by
  induction l with
  | nil =>
      simp only [hasSub, leadsWith_iff]
      constructor
      · rintro ⟨t, ht⟩; exact ⟨[], t, by simp [ht]⟩
      · rintro ⟨s, t, hst⟩
        rcases List.append_eq_nil.1 (List.append_eq_nil.1 hst.symm).1 with ⟨rfl, rfl⟩
        exact ⟨t, by simpa using hst⟩
  | cons d ds ih =>
      simp only [hasSub, Bool.or_eq_true, leadsWith_iff, ih]
      constructor
      · rintro (⟨t, ht⟩ | ⟨s, t, hst⟩)
        · exact ⟨[], t, by simp [ht]⟩
        · exact ⟨d :: s, t, by simp [hst]⟩
      · rintro ⟨s, t, hst⟩
        cases s with
        | nil => exact Or.inl ⟨t, by simpa using hst⟩
        | cons e es =>
            right
            simp only [List.cons_append, List.cons.injEq] at hst
            exact ⟨es, t, hst.2⟩

theorem hasSub_of_parts (pat s t : List Char) :
    hasSub pat (s ++ pat ++ t) = true :=
  (hasSub_iff pat _).2 ⟨s, t, rfl⟩

/-- Occurrences cannot cross a character that the pattern does not contain:
an occurrence of `pat` in `a ++ q :: b` with `q ∉ pat` lies wholly inside
`a` or wholly inside `b`. -/
theorem hasSub_append_mid {pat a b : List Char} {q : Char} (hq : q ∉ pat)
    (h : hasSub pat (a ++ q :: b) = true) :
    hasSub pat a = true ∨ hasSub pat b = true := by
  rcases (hasSub_iff pat _).1 h with ⟨s, t, hst⟩
  rw [List.append_assoc] at hst
  rcases List.append_eq_append_iff.1 hst with ⟨a', hs, hqb⟩ | ⟨c', ha, hpt⟩
  · cases a' with
    | nil =>
        simp only [List.nil_append] at hqb
        cases pat with
        | nil => exact Or.inr ((hasSub_iff [] b).2 ⟨[], b, rfl⟩)
        | cons p0 ps =>
            simp only [List.cons_append, List.cons.injEq] at hqb
            exact absurd (hqb.1 ▸ List.mem_cons_self p0 ps) hq
    | cons a0 as =>
        simp only [List.cons_append, List.cons.injEq] at hqb
        right
        exact (hasSub_iff pat b).2 ⟨as, t, by rw [hqb.2, List.append_assoc]⟩
  · rcases List.append_eq_append_iff.1 hpt with ⟨x, hc, ht⟩ | ⟨y, hp, hqb⟩
    · left
      exact (hasSub_iff pat a).2 ⟨s, x, by rw [ha, hc, List.append_assoc]⟩
    · cases y with
      | nil =>
          left
          exact (hasSub_iff pat a).2 ⟨s, [], by rw [ha, hp]; simp⟩
      | cons y0 ys =>
          simp only [List.cons_append, List.cons.injEq] at hqb
          refine absurd ?_ hq
          rw [hp, hqb.1]
          exact List.mem_append_right _ (List.mem_cons_self y0 ys)

/-! ## UTF-8: `TextDecoder` (`stream: true`) and `TextEncoder`

The relay loop decodes each upstream byte chunk as streamed UTF-8 and
re-encodes the resulting text. We embed the WHATWG UTF-8 decoder as a
function from bytes to code points plus a pending (incomplete trailing)
byte sequence carried to the next chunk, and the UTF-8 encoder. Invalid
input produces U+FFFD; the relay claims are settled against this model. -/

/-- Code point of the replacement character U+FFFD. -/
def replacementCp : Nat := 0xFFFD

/-- Continuation-byte test (`0x80..0xBF`). -/
def isCont (b : Nat) : Bool := 0x80 ≤ b ∧ b ≤ 0xBF

/-- Lower bound of the valid second byte for a given lead byte. -/
def lo2 (b : Nat) : Nat := if b = 0xE0 then 0xA0 else if b = 0xF0 then 0x90 else 0x80

/-- Upper bound of the valid second byte for a given lead byte. -/
def hi2 (b : Nat) : Nat := if b = 0xED then 0x9F else if b = 0xF4 then 0x8F else 0xBF

/-- Prepend a code point to a decoder result. -/
def consCp (c : Nat) (r : List Nat × List Nat) : List Nat × List Nat := (c :: r.1, r.2)

/-- Streaming UTF-8 decode of a byte buffer: returns the decoded code
points and the trailing incomplete (but so far well-formed) sequence that
a streaming `TextDecoder` would hold for the next chunk. Malformed input
yields U+FFFD and resumes at the offending byte, per WHATWG. -/
def utf8DecodeLoop : List Nat → List Nat × List Nat
  | [] => ([], [])
  | b0 :: rest =>
      if b0 < 0x80 then consCp b0 (utf8DecodeLoop rest)
      else if 0xC2 ≤ b0 ∧ b0 ≤ 0xDF then
        match rest with
        | [] => ([], [b0])
        | b1 :: rest1 =>
            if isCont b1 then
              consCp ((b0 - 0xC0) * 64 + (b1 - 0x80)) (utf8DecodeLoop rest1)
            else consCp replacementCp (utf8DecodeLoop (b1 :: rest1))
      else if 0xE0 ≤ b0 ∧ b0 ≤ 0xEF then
        match rest with
        | [] => ([], [b0])
        | b1 :: rest1 =>
            if lo2 b0 ≤ b1 ∧ b1 ≤ hi2 b0 then
              match rest1 with
              | [] => ([], [b0, b1])
              | b2 :: rest2 =>
                  if isCont b2 then
                    consCp ((b0 - 0xE0) * 4096 + (b1 - 0x80) * 64 + (b2 - 0x80))
                      (utf8DecodeLoop rest2)
                  else consCp replacementCp (utf8DecodeLoop (b2 :: rest2))
            else consCp replacementCp (utf8DecodeLoop (b1 :: rest1))
      else if 0xF0 ≤ b0 ∧ b0 ≤ 0xF4 then
        match rest with
        | [] => ([], [b0])
        | b1 :: rest1 =>
            if lo2 b0 ≤ b1 ∧ b1 ≤ hi2 b0 then
              match rest1 with
              | [] => ([], [b0, b1])
              | b2 :: rest2 =>
                  if isCont b2 then
                    match rest2 with
                    | [] => ([], [b0, b1, b2])
                    | b3 :: rest3 =>
                        if isCont b3 then
                          consCp ((b0 - 0xF0) * 262144 + (b1 - 0x80) * 4096 +
                              (b2 - 0x80) * 64 + (b3 - 0x80))
                            (utf8DecodeLoop rest3)
                        else consCp replacementCp (utf8DecodeLoop (b3 :: rest3))
                  else consCp replacementCp (utf8DecodeLoop (b2 :: rest2))
            else consCp replacementCp (utf8DecodeLoop (b1 :: rest1))
      else consCp replacementCp (utf8DecodeLoop rest)

/-- UTF-8 encoding of one code point (`TextEncoder` on a scalar value). -/
def utf8EncodeChar (c : Nat) : List Nat :=
  if c < 0x80 then [c]
  else if c < 0x800 then [0xC0 + c / 64, 0x80 + c % 64]
  else if c < 0x10000 then [0xE0 + c / 4096, 0x80 + c / 64 % 64, 0x80 + c % 64]
  else [0xF0 + c / 262144, 0x80 + c / 4096 % 64, 0x80 + c / 64 % 64, 0x80 + c % 64]

/-- UTF-8 encoding of a code-point sequence. -/
def utf8Encode : List Nat → List Nat
  | [] => []
  | c :: cs => utf8EncodeChar c ++ utf8Encode cs

/-- Well-formedness of a complete UTF-8 byte sequence (WHATWG ranges,
surrogates and over-long forms excluded by the second-byte bounds). -/
def utf8ValidB : List Nat → Bool
  | [] => true
  | b0 :: rest =>
      if b0 < 0x80 then utf8ValidB rest
      else if 0xC2 ≤ b0 ∧ b0 ≤ 0xDF then
        match rest with
        | [] => false
        | b1 :: rest1 => isCont b1 && utf8ValidB rest1
      else if 0xE0 ≤ b0 ∧ b0 ≤ 0xEF then
        match rest with
        | [] => false
        | b1 :: rest1 =>
            match rest1 with
            | [] => false
            | b2 :: rest2 =>
                decide (lo2 b0 ≤ b1 ∧ b1 ≤ hi2 b0) && isCont b2 && utf8ValidB rest2
      else if 0xF0 ≤ b0 ∧ b0 ≤ 0xF4 then
        match rest with
        | [] => false
        | b1 :: rest1 =>
            match rest1 with
            | [] => false
            | b2 :: rest2 =>
                match rest2 with
                | [] => false
                | b3 :: rest3 =>
                    decide (lo2 b0 ≤ b1 ∧ b1 ≤ hi2 b0) && isCont b2 && isCont b3 &&
                      utf8ValidB rest3
      else false

/-! ### Unfolding lemmas for the decoder, one per branch shape -/

theorem ds_nil : utf8DecodeLoop [] = ([], []) := rfl

theorem ds_ascii {b0 : Nat} (r : List Nat) (h : b0 < 0x80) :
    utf8DecodeLoop (b0 :: r) = consCp b0 (utf8DecodeLoop r) := by
  rw [utf8DecodeLoop.eq_def]; simp [h]

theorem ds_2pend {b0 : Nat} (h1 : ¬ b0 < 0x80) (h2 : 0xC2 ≤ b0 ∧ b0 ≤ 0xDF) :
    utf8DecodeLoop [b0] = ([], [b0]) := by
  rw [utf8DecodeLoop.eq_def]; simp [h1, h2]

theorem ds_2ok {b0 b1 : Nat} (r : List Nat) (h1 : ¬ b0 < 0x80)
    (h2 : 0xC2 ≤ b0 ∧ b0 ≤ 0xDF) (hc : isCont b1 = true) :
    utf8DecodeLoop (b0 :: b1 :: r) =
      consCp ((b0 - 0xC0) * 64 + (b1 - 0x80)) (utf8DecodeLoop r) := by
  rw [utf8DecodeLoop.eq_def]; simp [h1, h2, hc]

theorem ds_2bad {b0 b1 : Nat} (r : List Nat) (h1 : ¬ b0 < 0x80)
    (h2 : 0xC2 ≤ b0 ∧ b0 ≤ 0xDF) (hc : ¬ isCont b1 = true) :
    utf8DecodeLoop (b0 :: b1 :: r) = consCp replacementCp (utf8DecodeLoop (b1 :: r)) := by
  rw [utf8DecodeLoop.eq_def]; simp [h1, h2, hc]

theorem ds_3pend1 {b0 : Nat} (h1 : ¬ b0 < 0x80) (h2 : ¬ (0xC2 ≤ b0 ∧ b0 ≤ 0xDF))
    (h3 : 0xE0 ≤ b0 ∧ b0 ≤ 0xEF) : utf8DecodeLoop [b0] = ([], [b0]) := by
  rw [utf8DecodeLoop.eq_def]; simp [h1, h2, h3]

theorem ds_3pend2 {b0 b1 : Nat} (h1 : ¬ b0 < 0x80) (h2 : ¬ (0xC2 ≤ b0 ∧ b0 ≤ 0xDF))
    (h3 : 0xE0 ≤ b0 ∧ b0 ≤ 0xEF) (hok : lo2 b0 ≤ b1 ∧ b1 ≤ hi2 b0) :
    utf8DecodeLoop [b0, b1] = ([], [b0, b1]) := by
  rw [utf8DecodeLoop.eq_def]; simp [h1, h2, h3, hok]

theorem ds_3ok {b0 b1 b2 : Nat} (r : List Nat) (h1 : ¬ b0 < 0x80)
    (h2 : ¬ (0xC2 ≤ b0 ∧ b0 ≤ 0xDF)) (h3 : 0xE0 ≤ b0 ∧ b0 ≤ 0xEF)
    (hok : lo2 b0 ≤ b1 ∧ b1 ≤ hi2 b0) (hc2 : isCont b2 = true) :
    utf8DecodeLoop (b0 :: b1 :: b2 :: r) =
      consCp ((b0 - 0xE0) * 4096 + (b1 - 0x80) * 64 + (b2 - 0x80)) (utf8DecodeLoop r) := by
  rw [utf8DecodeLoop.eq_def]; simp [h1, h2, h3, hok, hc2]

theorem ds_3bad2 {b0 b1 b2 : Nat} (r : List Nat) (h1 : ¬ b0 < 0x80)
    (h2 : ¬ (0xC2 ≤ b0 ∧ b0 ≤ 0xDF)) (h3 : 0xE0 ≤ b0 ∧ b0 ≤ 0xEF)
    (hok : lo2 b0 ≤ b1 ∧ b1 ≤ hi2 b0) (hc2 : ¬ isCont b2 = true) :
    utf8DecodeLoop (b0 :: b1 :: b2 :: r) =
      consCp replacementCp (utf8DecodeLoop (b2 :: r)) := by
  rw [utf8DecodeLoop.eq_def]; simp [h1, h2, h3, hok, hc2]

theorem ds_3bad1 {b0 b1 : Nat} (r : List Nat) (h1 : ¬ b0 < 0x80)
    (h2 : ¬ (0xC2 ≤ b0 ∧ b0 ≤ 0xDF)) (h3 : 0xE0 ≤ b0 ∧ b0 ≤ 0xEF)
    (hok : ¬ (lo2 b0 ≤ b1 ∧ b1 ≤ hi2 b0)) :
    utf8DecodeLoop (b0 :: b1 :: r) = consCp replacementCp (utf8DecodeLoop (b1 :: r)) := by
  rw [utf8DecodeLoop.eq_def]; simp [h1, h2, h3, hok]

theorem ds_4pend1 {b0 : Nat} (h1 : ¬ b0 < 0x80) (h2 : ¬ (0xC2 ≤ b0 ∧ b0 ≤ 0xDF))
    (h3 : ¬ (0xE0 ≤ b0 ∧ b0 ≤ 0xEF)) (h4 : 0xF0 ≤ b0 ∧ b0 ≤ 0xF4) :
    utf8DecodeLoop [b0] = ([], [b0]) := by
  rw [utf8DecodeLoop.eq_def]; simp [h1, h2, h3, h4]

theorem ds_4pend2 {b0 b1 : Nat} (h1 : ¬ b0 < 0x80) (h2 : ¬ (0xC2 ≤ b0 ∧ b0 ≤ 0xDF))
    (h3 : ¬ (0xE0 ≤ b0 ∧ b0 ≤ 0xEF)) (h4 : 0xF0 ≤ b0 ∧ b0 ≤ 0xF4)
    (hok : lo2 b0 ≤ b1 ∧ b1 ≤ hi2 b0) :
    utf8DecodeLoop [b0, b1] = ([], [b0, b1]) := by
  rw [utf8DecodeLoop.eq_def]; simp [h1, h2, h3, h4, hok]

theorem ds_4pend3 {b0 b1 b2 : Nat} (h1 : ¬ b0 < 0x80) (h2 : ¬ (0xC2 ≤ b0 ∧ b0 ≤ 0xDF))
    (h3 : ¬ (0xE0 ≤ b0 ∧ b0 ≤ 0xEF)) (h4 : 0xF0 ≤ b0 ∧ b0 ≤ 0xF4)
    (hok : lo2 b0 ≤ b1 ∧ b1 ≤ hi2 b0) (hc2 : isCont b2 = true) :
    utf8DecodeLoop [b0, b1, b2] = ([], [b0, b1, b2]) := by
  rw [utf8DecodeLoop.eq_def]; simp [h1, h2, h3, h4, hok, hc2]

theorem ds_4ok {b0 b1 b2 b3 : Nat} (r : List Nat) (h1 : ¬ b0 < 0x80)
    (h2 : ¬ (0xC2 ≤ b0 ∧ b0 ≤ 0xDF)) (h3 : ¬ (0xE0 ≤ b0 ∧ b0 ≤ 0xEF))
    (h4 : 0xF0 ≤ b0 ∧ b0 ≤ 0xF4) (hok : lo2 b0 ≤ b1 ∧ b1 ≤ hi2 b0)
    (hc2 : isCont b2 = true) (hc3 : isCont b3 = true) :
    utf8DecodeLoop (b0 :: b1 :: b2 :: b3 :: r) =
      consCp ((b0 - 0xF0) * 262144 + (b1 - 0x80) * 4096 + (b2 - 0x80) * 64 + (b3 - 0x80))
        (utf8DecodeLoop r) := by
  rw [utf8DecodeLoop.eq_def]; simp [h1, h2, h3, h4, hok, hc2, hc3]

theorem ds_4bad3 {b0 b1 b2 b3 : Nat} (r : List Nat) (h1 : ¬ b0 < 0x80)
    (h2 : ¬ (0xC2 ≤ b0 ∧ b0 ≤ 0xDF)) (h3 : ¬ (0xE0 ≤ b0 ∧ b0 ≤ 0xEF))
    (h4 : 0xF0 ≤ b0 ∧ b0 ≤ 0xF4) (hok : lo2 b0 ≤ b1 ∧ b1 ≤ hi2 b0)
    (hc2 : isCont b2 = true) (hc3 : ¬ isCont b3 = true) :
    utf8DecodeLoop (b0 :: b1 :: b2 :: b3 :: r) =
      consCp replacementCp (utf8DecodeLoop (b3 :: r)) := by
  rw [utf8DecodeLoop.eq_def]; simp [h1, h2, h3, h4, hok, hc2, hc3]

theorem ds_4bad2 {b0 b1 b2 : Nat} (r : List Nat) (h1 : ¬ b0 < 0x80)
    (h2 : ¬ (0xC2 ≤ b0 ∧ b0 ≤ 0xDF)) (h3 : ¬ (0xE0 ≤ b0 ∧ b0 ≤ 0xEF))
    (h4 : 0xF0 ≤ b0 ∧ b0 ≤ 0xF4) (hok : lo2 b0 ≤ b1 ∧ b1 ≤ hi2 b0)
    (hc2 : ¬ isCont b2 = true) :
    utf8DecodeLoop (b0 :: b1 :: b2 :: r) =
      consCp replacementCp (utf8DecodeLoop (b2 :: r)) := by
  rw [utf8DecodeLoop.eq_def]; simp [h1, h2, h3, h4, hok, hc2]

theorem ds_4bad1 {b0 b1 : Nat} (r : List Nat) (h1 : ¬ b0 < 0x80)
    (h2 : ¬ (0xC2 ≤ b0 ∧ b0 ≤ 0xDF)) (h3 : ¬ (0xE0 ≤ b0 ∧ b0 ≤ 0xEF))
    (h4 : 0xF0 ≤ b0 ∧ b0 ≤ 0xF4) (hok : ¬ (lo2 b0 ≤ b1 ∧ b1 ≤ hi2 b0)) :
    utf8DecodeLoop (b0 :: b1 :: r) = consCp replacementCp (utf8DecodeLoop (b1 :: r)) := by
  rw [utf8DecodeLoop.eq_def]; simp [h1, h2, h3, h4, hok]

theorem ds_badlead {b0 : Nat} (r : List Nat) (h1 : ¬ b0 < 0x80)
    (h2 : ¬ (0xC2 ≤ b0 ∧ b0 ≤ 0xDF)) (h3 : ¬ (0xE0 ≤ b0 ∧ b0 ≤ 0xEF))
    (h4 : ¬ (0xF0 ≤ b0 ∧ b0 ≤ 0xF4)) :
    utf8DecodeLoop (b0 :: r) = consCp replacementCp (utf8DecodeLoop r) := by
  rw [utf8DecodeLoop.eq_def]; simp [h1, h2, h3, h4]

/-! ### Unfolding lemmas for the validity checker -/

theorem vs_ascii {b0 : Nat} (r : List Nat) (h : b0 < 0x80) :
    utf8ValidB (b0 :: r) = utf8ValidB r := by
  rw [utf8ValidB.eq_def]; simp [h]

theorem vs_2 {b0 b1 : Nat} (r : List Nat) (h1 : ¬ b0 < 0x80)
    (h2 : 0xC2 ≤ b0 ∧ b0 ≤ 0xDF) :
    utf8ValidB (b0 :: b1 :: r) = (isCont b1 && utf8ValidB r) := by
  rw [utf8ValidB.eq_def]; simp [h1, h2]

theorem vs_2nil {b0 : Nat} (h1 : ¬ b0 < 0x80) (h2 : 0xC2 ≤ b0 ∧ b0 ≤ 0xDF) :
    utf8ValidB [b0] = false := by
  rw [utf8ValidB.eq_def]; simp [h1, h2]

theorem vs_3 {b0 b1 b2 : Nat} (r : List Nat) (h1 : ¬ b0 < 0x80)
    (h2 : ¬ (0xC2 ≤ b0 ∧ b0 ≤ 0xDF)) (h3 : 0xE0 ≤ b0 ∧ b0 ≤ 0xEF) :
    utf8ValidB (b0 :: b1 :: b2 :: r) =
      (decide (lo2 b0 ≤ b1 ∧ b1 ≤ hi2 b0) && isCont b2 && utf8ValidB r) := by
  rw [utf8ValidB.eq_def]; simp [h1, h2, h3]

theorem vs_3nil {b0 : Nat} (h1 : ¬ b0 < 0x80) (h2 : ¬ (0xC2 ≤ b0 ∧ b0 ≤ 0xDF))
    (h3 : 0xE0 ≤ b0 ∧ b0 ≤ 0xEF) : utf8ValidB [b0] = false := by
  rw [utf8ValidB.eq_def]; simp [h1, h2, h3]

theorem vs_3one {b0 b1 : Nat} (h1 : ¬ b0 < 0x80) (h2 : ¬ (0xC2 ≤ b0 ∧ b0 ≤ 0xDF))
    (h3 : 0xE0 ≤ b0 ∧ b0 ≤ 0xEF) : utf8ValidB [b0, b1] = false := by
  rw [utf8ValidB.eq_def]; simp [h1, h2, h3]

theorem vs_4 {b0 b1 b2 b3 : Nat} (r : List Nat) (h1 : ¬ b0 < 0x80)
    (h2 : ¬ (0xC2 ≤ b0 ∧ b0 ≤ 0xDF)) (h3 : ¬ (0xE0 ≤ b0 ∧ b0 ≤ 0xEF))
    (h4 : 0xF0 ≤ b0 ∧ b0 ≤ 0xF4) :
    utf8ValidB (b0 :: b1 :: b2 :: b3 :: r) =
      (decide (lo2 b0 ≤ b1 ∧ b1 ≤ hi2 b0) && isCont b2 && isCont b3 && utf8ValidB r) := by
  rw [utf8ValidB.eq_def]; simp [h1, h2, h3, h4]

theorem vs_4nil {b0 : Nat} (h1 : ¬ b0 < 0x80) (h2 : ¬ (0xC2 ≤ b0 ∧ b0 ≤ 0xDF))
    (h3 : ¬ (0xE0 ≤ b0 ∧ b0 ≤ 0xEF)) (h4 : 0xF0 ≤ b0 ∧ b0 ≤ 0xF4) :
    utf8ValidB [b0] = false := by
  rw [utf8ValidB.eq_def]; simp [h1, h2, h3, h4]

theorem vs_4one {b0 b1 : Nat} (h1 : ¬ b0 < 0x80) (h2 : ¬ (0xC2 ≤ b0 ∧ b0 ≤ 0xDF))
    (h3 : ¬ (0xE0 ≤ b0 ∧ b0 ≤ 0xEF)) (h4 : 0xF0 ≤ b0 ∧ b0 ≤ 0xF4) :
    utf8ValidB [b0, b1] = false := by
  rw [utf8ValidB.eq_def]; simp [h1, h2, h3, h4]

theorem vs_4two {b0 b1 b2 : Nat} (h1 : ¬ b0 < 0x80) (h2 : ¬ (0xC2 ≤ b0 ∧ b0 ≤ 0xDF))
    (h3 : ¬ (0xE0 ≤ b0 ∧ b0 ≤ 0xEF)) (h4 : 0xF0 ≤ b0 ∧ b0 ≤ 0xF4) :
    utf8ValidB [b0, b1, b2] = false := by
  rw [utf8ValidB.eq_def]; simp [h1, h2, h3, h4]

theorem vs_bad {b0 : Nat} (r : List Nat) (h1 : ¬ b0 < 0x80)
    (h2 : ¬ (0xC2 ≤ b0 ∧ b0 ≤ 0xDF)) (h3 : ¬ (0xE0 ≤ b0 ∧ b0 ≤ 0xEF))
    (h4 : ¬ (0xF0 ≤ b0 ∧ b0 ≤ 0xF4)) : utf8ValidB (b0 :: r) = false := by
  rw [utf8ValidB.eq_def]; simp [h1, h2, h3, h4]

/-! ### Encoder facts -/

theorem isCont_iff {b : Nat} : isCont b = true ↔ 0x80 ≤ b ∧ b ≤ 0xBF := by
  simp [isCont]

theorem lo2_ge (b : Nat) : 0x80 ≤ lo2 b := by
  unfold lo2; split_ifs <;> omega

theorem hi2_le (b : Nat) : hi2 b ≤ 0xBF := by
  unfold hi2; split_ifs <;> omega

theorem utf8Encode_cons (c : Nat) (cs : List Nat) :
    utf8Encode (c :: cs) = utf8EncodeChar c ++ utf8Encode cs := rfl

/-- Re-encoding the code point decoded from a well-formed 2-byte sequence
restores the two bytes. -/
theorem enc2_bytes {b0 b1 : Nat} (h2 : 0xC2 ≤ b0 ∧ b0 ≤ 0xDF) (hc : isCont b1 = true) :
    utf8EncodeChar ((b0 - 0xC0) * 64 + (b1 - 0x80)) = [b0, b1] := by
  have hb1 := isCont_iff.1 hc
  rw [utf8EncodeChar, if_neg (by omega), if_pos (by omega)]
  simp only [List.cons.injEq, and_true]
  constructor <;> omega

/-- Re-encoding the code point decoded from a well-formed 3-byte sequence
restores the three bytes. -/
theorem enc3_bytes {b0 b1 b2 : Nat} (h3 : 0xE0 ≤ b0 ∧ b0 ≤ 0xEF)
    (hok : lo2 b0 ≤ b1 ∧ b1 ≤ hi2 b0) (hc2 : isCont b2 = true) :
    utf8EncodeChar ((b0 - 0xE0) * 4096 + (b1 - 0x80) * 64 + (b2 - 0x80)) = [b0, b1, b2] := by
  have hb1lo : 0x80 ≤ b1 := le_trans (lo2_ge b0) hok.1
  have hb1hi : b1 ≤ 0xBF := le_trans hok.2 (hi2_le b0)
  have hb2 := isCont_iff.1 hc2
  have hge : 0x800 ≤ (b0 - 0xE0) * 4096 + (b1 - 0x80) * 64 + (b2 - 0x80) := by
    by_cases hE : b0 = 0xE0
    · have : (0xA0 : Nat) ≤ b1 := by
        have := hok.1; rw [hE] at this; simpa [lo2] using this
      omega
    · omega
  rw [utf8EncodeChar, if_neg (by omega), if_neg (by omega), if_pos (by omega)]
  simp only [List.cons.injEq, and_true]
  refine ⟨by omega, by omega, by omega⟩

/-- Re-encoding the code point decoded from a well-formed 4-byte sequence
restores the four bytes. -/
theorem enc4_bytes {b0 b1 b2 b3 : Nat} (h4 : 0xF0 ≤ b0 ∧ b0 ≤ 0xF4)
    (hok : lo2 b0 ≤ b1 ∧ b1 ≤ hi2 b0) (hc2 : isCont b2 = true) (hc3 : isCont b3 = true) :
    utf8EncodeChar
        ((b0 - 0xF0) * 262144 + (b1 - 0x80) * 4096 + (b2 - 0x80) * 64 + (b3 - 0x80)) =
      [b0, b1, b2, b3] := by
  have hb1lo : 0x80 ≤ b1 := le_trans (lo2_ge b0) hok.1
  have hb1hi : b1 ≤ 0xBF := le_trans hok.2 (hi2_le b0)
  have hb2 := isCont_iff.1 hc2
  have hb3 := isCont_iff.1 hc3
  have hge : 0x10000 ≤ (b0 - 0xF0) * 262144 + (b1 - 0x80) * 4096 + (b2 - 0x80) * 64 +
      (b3 - 0x80) := by
    by_cases hF : b0 = 0xF0
    · have : (0x90 : Nat) ≤ b1 := by
        have := hok.1; rw [hF] at this; simpa [lo2] using this
      omega
    · omega
  rw [utf8EncodeChar, if_neg (by omega), if_neg (by omega), if_neg (by omega)]
  simp only [List.cons.injEq, and_true]
  refine ⟨by omega, by omega, by omega, by omega⟩

/-! ### Pending state is stuck

The pending tail produced by the decoder decodes to itself with no output:
it is exactly the state a streaming `TextDecoder` carries forward. -/

theorem decode_pending_stuck (l : List Nat) :
    utf8DecodeLoop ((utf8DecodeLoop l).2) = ([], (utf8DecodeLoop l).2) := by
  induction l using utf8DecodeLoop.induct with
  | case1 => simp [ds_nil]
  | case2 b0 r h ih => rw [ds_ascii r h]; simpa [consCp] using ih
  | case3 b0 h1 h2 => rw [ds_2pend h1 h2]; exact ds_2pend h1 h2
  | case4 b0 h1 h2 b1 r hc ih => rw [ds_2ok r h1 h2 hc]; simpa [consCp] using ih
  | case5 b0 h1 h2 b1 r hc ih => rw [ds_2bad r h1 h2 hc]; simpa [consCp] using ih
  | case6 b0 h1 h2 h3 => rw [ds_3pend1 h1 h2 h3]; exact ds_3pend1 h1 h2 h3
  | case7 b0 h1 h2 h3 b1 hok =>
      rw [ds_3pend2 h1 h2 h3 hok]; exact ds_3pend2 h1 h2 h3 hok
  | case8 b0 h1 h2 h3 b1 hok b2 r hc2 ih =>
      rw [ds_3ok r h1 h2 h3 hok hc2]; simpa [consCp] using ih
  | case9 b0 h1 h2 h3 b1 hok b2 r hc2 ih =>
      rw [ds_3bad2 r h1 h2 h3 hok hc2]; simpa [consCp] using ih
  | case10 b0 h1 h2 h3 b1 r hok ih =>
      rw [ds_3bad1 r h1 h2 h3 hok]; simpa [consCp] using ih
  | case11 b0 h1 h2 h3 h4 => rw [ds_4pend1 h1 h2 h3 h4]; exact ds_4pend1 h1 h2 h3 h4
  | case12 b0 h1 h2 h3 h4 b1 hok =>
      rw [ds_4pend2 h1 h2 h3 h4 hok]; exact ds_4pend2 h1 h2 h3 h4 hok
  | case13 b0 h1 h2 h3 h4 b1 hok b2 hc2 =>
      rw [ds_4pend3 h1 h2 h3 h4 hok hc2]; exact ds_4pend3 h1 h2 h3 h4 hok hc2
  | case14 b0 h1 h2 h3 h4 b1 hok b2 hc2 b3 r hc3 ih =>
      rw [ds_4ok r h1 h2 h3 h4 hok hc2 hc3]; simpa [consCp] using ih
  | case15 b0 h1 h2 h3 h4 b1 hok b2 hc2 b3 r hc3 ih =>
      rw [ds_4bad3 r h1 h2 h3 h4 hok hc2 hc3]; simpa [consCp] using ih
  | case16 b0 h1 h2 h3 h4 b1 hok b2 r hc2 ih =>
      rw [ds_4bad2 r h1 h2 h3 h4 hok hc2]; simpa [consCp] using ih
  | case17 b0 h1 h2 h3 h4 b1 r hok ih =>
      rw [ds_4bad1 r h1 h2 h3 h4 hok]; simpa [consCp] using ih
  | case18 b0 r h1 h2 h3 h4 ih =>
      rw [ds_badlead r h1 h2 h3 h4]; simpa [consCp] using ih

/-! ### Emission lemma

On any prefix `l` of a well-formed byte stream, re-encoding the decoded
code points and appending the pending tail restores `l` exactly, and the
remainder of the stream stays well-formed when re-prefixed with the
pending tail. This is the heart of the byte-transparency argument for the
relay. -/

theorem utf8DecodeLoop_emit (m : List Nat) : ∀ l : List Nat,
    utf8ValidB (l ++ m) = true →
    utf8Encode (utf8DecodeLoop l).1 ++ (utf8DecodeLoop l).2 = l ∧
    utf8ValidB ((utf8DecodeLoop l).2 ++ m) = true := by
  intro l
  induction l using utf8DecodeLoop.induct with
  | case1 =>
      intro H
      exact ⟨by simp [ds_nil, utf8Encode], by simpa using H⟩
  | case2 b0 r h ih =>
      intro H
      rw [List.cons_append, vs_ascii _ h] at H
      have IH := ih H
      have henc : utf8EncodeChar b0 = [b0] := by rw [utf8EncodeChar, if_pos h]
      rw [ds_ascii r h]
      refine ⟨?_, IH.2⟩
      simp only [consCp, utf8Encode_cons, henc, List.cons_append, List.nil_append]
      rw [IH.1]
  | case3 b0 h1 h2 =>
      intro H
      rw [ds_2pend h1 h2]
      exact ⟨by simp [utf8Encode], H⟩
  | case4 b0 h1 h2 b1 r hc ih =>
      intro H
      rw [List.cons_append, List.cons_append, vs_2 _ h1 h2] at H
      simp only [Bool.and_eq_true] at H
      have IH := ih H.2
      rw [ds_2ok r h1 h2 hc]
      refine ⟨?_, IH.2⟩
      simp only [consCp, utf8Encode_cons, enc2_bytes h2 hc, List.cons_append,
        List.nil_append, List.append_assoc]
      rw [IH.1]
  | case5 b0 h1 h2 b1 r hc ih =>
      intro H
      rw [List.cons_append, List.cons_append, vs_2 _ h1 h2] at H
      simp [hc] at H
  | case6 b0 h1 h2 h3 =>
      intro H
      rw [ds_3pend1 h1 h2 h3]
      exact ⟨by simp [utf8Encode], H⟩
  | case7 b0 h1 h2 h3 b1 hok =>
      intro H
      rw [ds_3pend2 h1 h2 h3 hok]
      exact ⟨by simp [utf8Encode], H⟩
  | case8 b0 h1 h2 h3 b1 hok b2 r hc2 ih =>
      intro H
      rw [List.cons_append, List.cons_append, List.cons_append, vs_3 _ h1 h2 h3] at H
      simp only [Bool.and_eq_true] at H
      have IH := ih H.2
      rw [ds_3ok r h1 h2 h3 hok hc2]
      refine ⟨?_, IH.2⟩
      simp only [consCp, utf8Encode_cons, enc3_bytes h3 hok hc2, List.cons_append,
        List.nil_append, List.append_assoc]
      rw [IH.1]
  | case9 b0 h1 h2 h3 b1 hok b2 r hc2 ih =>
      intro H
      rw [List.cons_append, List.cons_append, List.cons_append, vs_3 _ h1 h2 h3] at H
      simp [hc2] at H
  | case10 b0 h1 h2 h3 b1 r hok ih =>
      intro H
      rw [List.cons_append, List.cons_append] at H
      cases hrm : r ++ m with
      | nil =>
          rw [hrm, vs_3one h1 h2 h3] at H
          exact absurd H (by simp)
      | cons c cs =>
          rw [hrm, vs_3 _ h1 h2 h3] at H
          simp [hok] at H
  | case11 b0 h1 h2 h3 h4 =>
      intro H
      rw [ds_4pend1 h1 h2 h3 h4]
      exact ⟨by simp [utf8Encode], H⟩
  | case12 b0 h1 h2 h3 h4 b1 hok =>
      intro H
      rw [ds_4pend2 h1 h2 h3 h4 hok]
      exact ⟨by simp [utf8Encode], H⟩
  | case13 b0 h1 h2 h3 h4 b1 hok b2 hc2 =>
      intro H
      rw [ds_4pend3 h1 h2 h3 h4 hok hc2]
      exact ⟨by simp [utf8Encode], H⟩
  | case14 b0 h1 h2 h3 h4 b1 hok b2 hc2 b3 r hc3 ih =>
      intro H
      rw [List.cons_append, List.cons_append, List.cons_append, List.cons_append,
        vs_4 _ h1 h2 h3 h4] at H
      simp only [Bool.and_eq_true] at H
      have IH := ih H.2
      rw [ds_4ok r h1 h2 h3 h4 hok hc2 hc3]
      refine ⟨?_, IH.2⟩
      simp only [consCp, utf8Encode_cons, enc4_bytes h4 hok hc2 hc3, List.cons_append,
        List.nil_append, List.append_assoc]
      rw [IH.1]
  | case15 b0 h1 h2 h3 h4 b1 hok b2 hc2 b3 r hc3 ih =>
      intro H
      rw [List.cons_append, List.cons_append, List.cons_append, List.cons_append,
        vs_4 _ h1 h2 h3 h4] at H
      simp [hc3] at H
  | case16 b0 h1 h2 h3 h4 b1 hok b2 r hc2 ih =>
      intro H
      rw [List.cons_append, List.cons_append, List.cons_append] at H
      cases hrm : r ++ m with
      | nil =>
          rw [hrm, vs_4two h1 h2 h3 h4] at H
          exact absurd H (by simp)
      | cons c cs =>
          rw [hrm, vs_4 _ h1 h2 h3 h4] at H
          simp [hc2] at H
  | case17 b0 h1 h2 h3 h4 b1 r hok ih =>
      intro H
      rw [List.cons_append, List.cons_append] at H
      cases hrm : r ++ m with
      | nil =>
          rw [hrm, vs_4one h1 h2 h3 h4] at H
          exact absurd H (by simp)
      | cons c cs =>
          cases cs with
          | nil =>
              rw [hrm, vs_4two h1 h2 h3 h4] at H
              exact absurd H (by simp)
          | cons d ds =>
              rw [hrm, vs_4 _ h1 h2 h3 h4] at H
              simp [hok] at H
  | case18 b0 r h1 h2 h3 h4 ih =>
      intro H
      rw [List.cons_append, vs_bad _ h1 h2 h3 h4] at H
      exact absurd H (by simp)

/-- Round trip on a complete well-formed UTF-8 buffer: nothing is left
pending and re-encoding restores the bytes. -/
theorem utf8_roundtrip : ∀ l : List Nat, utf8ValidB l = true →
    (utf8DecodeLoop l).2 = [] ∧ utf8Encode (utf8DecodeLoop l).1 = l := by
  intro l
  induction l using utf8ValidB.induct with
  | case1 => intro _; exact ⟨rfl, rfl⟩
  | case2 b0 r h ih =>
      intro H
      rw [vs_ascii _ h] at H
      have IH := ih H
      have henc : utf8EncodeChar b0 = [b0] := by rw [utf8EncodeChar, if_pos h]
      rw [ds_ascii r h]
      refine ⟨by simpa [consCp] using IH.1, ?_⟩
      simp only [consCp, utf8Encode_cons, henc, List.cons_append, List.nil_append]
      rw [IH.2]
  | case3 b0 h1 h2 =>
      intro H
      rw [vs_2nil h1 h2] at H
      exact absurd H (by simp)
  | case4 b0 h1 h2 b1 r ih =>
      intro H
      rw [vs_2 _ h1 h2] at H
      simp only [Bool.and_eq_true] at H
      have IH := ih H.2
      rw [ds_2ok r h1 h2 H.1]
      refine ⟨by simpa [consCp] using IH.1, ?_⟩
      simp only [consCp, utf8Encode_cons, enc2_bytes h2 H.1, List.cons_append,
        List.nil_append]
      rw [IH.2]
  | case5 b0 h1 h2 h3 =>
      intro H
      rw [vs_3nil h1 h2 h3] at H
      exact absurd H (by simp)
  | case6 b0 h1 h2 h3 b1 =>
      intro H
      rw [vs_3one h1 h2 h3] at H
      exact absurd H (by simp)
  | case7 b0 h1 h2 h3 b1 b2 r ih =>
      intro H
      rw [vs_3 _ h1 h2 h3] at H
      simp only [Bool.and_eq_true, decide_eq_true_eq] at H
      have IH := ih H.2
      rw [ds_3ok r h1 h2 h3 H.1.1 H.1.2]
      refine ⟨by simpa [consCp] using IH.1, ?_⟩
      simp only [consCp, utf8Encode_cons, enc3_bytes h3 H.1.1 H.1.2, List.cons_append,
        List.nil_append]
      rw [IH.2]
  | case8 b0 h1 h2 h3 h4 =>
      intro H
      rw [vs_4nil h1 h2 h3 h4] at H
      exact absurd H (by simp)
  | case9 b0 h1 h2 h3 h4 b1 =>
      intro H
      rw [vs_4one h1 h2 h3 h4] at H
      exact absurd H (by simp)
  | case10 b0 h1 h2 h3 h4 b1 b2 =>
      intro H
      rw [vs_4two h1 h2 h3 h4] at H
      exact absurd H (by simp)
  | case11 b0 h1 h2 h3 h4 b1 b2 b3 r ih =>
      intro H
      rw [vs_4 _ h1 h2 h3 h4] at H
      simp only [Bool.and_eq_true, decide_eq_true_eq] at H
      have IH := ih H.2
      rw [ds_4ok r h1 h2 h3 h4 H.1.1.1 H.1.1.2 H.1.2]
      refine ⟨by simpa [consCp] using IH.1, ?_⟩
      simp only [consCp, utf8Encode_cons, enc4_bytes h4 H.1.1.1 H.1.1.2 H.1.2,
        List.cons_append, List.nil_append]
      rw [IH.2]
  | case12 b0 r h1 h2 h3 h4 =>
      intro H
      rw [vs_bad _ h1 h2 h3 h4] at H
      exact absurd H (by simp)

/-! ## The streaming relay (route lines 144-176)

The `ReadableStream` `start` callback loops over `reader.read()`: each
upstream chunk is decoded (`TextDecoder`, `stream: true`), re-encoded
(`TextEncoder`) and enqueued; a normal `done` breaks out of the loop and
the `finally` block closes the controller; a rejected read lands in the
`catch` block, which puts the controller into the errored state. The
upstream body is modelled as the list of chunks delivered before the read
loop terminates, together with how it terminates. -/

/-- How the upstream byte stream terminates. -/
inductive UpEnd where
  | normalDone
  | readError
deriving DecidableEq, Repr

/-- Terminal state the downstream consumer observes. -/
inductive DownEnd where
  | closed
  | errored
deriving DecidableEq, Repr

/-- The relay loop: decoder state `pending`, remaining upstream chunks, and
the upstream termination event. Produces the chunks enqueued downstream
and the consumer-visible terminal state. -/
def relayLoop (pending : List Nat) : List (List Nat) → UpEnd → List (List Nat) × DownEnd
  | [], .normalDone => ([], .closed)
  | [], .readError => ([], .errored)
  | c :: cs, e =>
      let r := utf8DecodeLoop (pending ++ c)
      let rest := relayLoop r.2 cs e
      (utf8Encode r.1 :: rest.1, rest.2)

/-- Data part of the relay, independent of how the stream ends: the scan of
decode/re-encode over the chunks with the decoder state threaded through. -/
def downstreamChunks (pending : List Nat) : List (List Nat) → List (List Nat)
  | [] => []
  | c :: cs =>
      let r := utf8DecodeLoop (pending ++ c)
      utf8Encode r.1 :: downstreamChunks r.2 cs

theorem relayLoop_done (pending : List Nat) : ∀ chunks : List (List Nat),
    relayLoop pending chunks .normalDone = (downstreamChunks pending chunks, .closed) := by
  intro chunks
  induction chunks generalizing pending with
  | nil => rfl
  | cons c cs ih => simp [relayLoop, downstreamChunks, ih]

theorem relayLoop_error (pending : List Nat) : ∀ chunks : List (List Nat),
    relayLoop pending chunks .readError = (downstreamChunks pending chunks, .errored) := by
  intro chunks
  induction chunks generalizing pending with
  | nil => rfl
  | cons c cs ih => simp [relayLoop, downstreamChunks, ih]

/-- Bytes delivered by the relay over a whole stream: when the complete
upstream byte sequence is well-formed UTF-8, the concatenation of the
delivered chunks is exactly the concatenation of the upstream chunks. -/
theorem downstreamChunks_join : ∀ (chunks : List (List Nat)) (pending : List Nat),
    utf8DecodeLoop pending = ([], pending) →
    utf8ValidB (pending ++ chunks.flatten) = true →
    (downstreamChunks pending chunks).flatten = pending ++ chunks.flatten := by
  intro chunks
  induction chunks with
  | nil =>
      intro pending hstuck hv
      have hrt := utf8_roundtrip pending (by simpa using hv)
      rw [hstuck] at hrt
      have hpend : pending = [] := by simpa using hrt.1
      simp [downstreamChunks, hpend]
  | cons c cs ih =>
      intro pending hstuck hv
      have hv' : utf8ValidB ((pending ++ c) ++ cs.flatten) = true := by
        simpa [List.append_assoc] using hv
      have hemit := utf8DecodeLoop_emit cs.flatten (pending ++ c) hv'
      have hstuck' := decode_pending_stuck (pending ++ c)
      have ihres := ih (utf8DecodeLoop (pending ++ c)).2 hstuck' hemit.2
      simp only [downstreamChunks, List.flatten_cons]
      rw [ihres, ← List.append_assoc, hemit.1, List.append_assoc]

/-- Per-chunk transparency: when every upstream chunk is by itself a
complete well-formed UTF-8 buffer, the relay forwards each chunk
unchanged. -/
theorem downstreamChunks_valid : ∀ chunks : List (List Nat),
    (∀ c ∈ chunks, utf8ValidB c = true) → downstreamChunks [] chunks = chunks := by
  intro chunks h
  induction chunks with
  | nil => rfl
  | cons c cs ih =>
      have hrt := utf8_roundtrip c (h c (by simp))
      simp only [downstreamChunks, List.nil_append]
      rw [hrt.1, hrt.2, ih (fun d hd => h d (by simp [hd]))]

/-! ## Upstream response handling and the full `POST` pipeline -/

/-- Upstream `fetch` outcome: HTTP status, best-effort body text (`none`
when `text()` rejects and the `.catch` yields `""`), and the streamed body
as chunks plus its termination. -/
structure UpResponse where
  status : Nat
  bodyText : Option String
  chunks : List (List Nat)
  ending : UpEnd

/-- Observable outcome of the route: a JSON error response or a streamed
body with the consumer-visible terminal state. -/
inductive PostResult where
  | jsonError (status : Nat) (errorMsg : String) (details : Option String)
  | streamResp (chunks : List (List Nat)) (ending : DownEnd)
deriving DecidableEq, Repr

/-- Error message of the non-ok upstream branch (route line 136). -/
def upstreamFailMsg : String :=
  "OpenRouter request failed. Check model/video compatibility and limits."

/-- Embedding of the route after the `fetch` (lines 131-176): non-2xx
status returns the 502 JSON error whose `details` is the best-effort body
text, falling back to `Status N`; otherwise the relay streams the body. -/
def handleUpstream (res : UpResponse) : PostResult :=
  if 200 ≤ res.status ∧ res.status < 300 then
    let r := relayLoop [] res.chunks res.ending
    .streamResp r.1 r.2
  else
    let errText := res.bodyText.getD ""
    .jsonError 502 upstreamFailMsg
      (some (if errText = "" then "Status " ++ toString res.status else errText))

/-- JS truthiness of `process.env.OPENROUTER_API_KEY`: set and non-empty. -/
def keyPresent : Option String → Bool
  | none => false
  | some s => s ≠ ""

/-- Literal error message of each early-return site of the route. -/
def errorMessage : ApiError → String
  | .serverMisconfigured => "Server misconfigured: OPENROUTER_API_KEY is missing."
  | .missingInput => "Provide a video file or a video URL."
  | .emptyFile => "Uploaded video file is empty."
  | .tooLarge => "Video too large. Please compress or trim below 100MB before uploading."
  | .invalidUrl => "Invalid video URL provided."
  | .unresolvedInput => "Unable to resolve video input."

/-- Whitespace test for the trim model (ASCII whitespace). -/
def isSpaceChar (c : Char) : Bool :=
  c = ' ' ∨ c = '\t' ∨ c = '\n' ∨ c = '\r' ∨ c = '\x0b' ∨ c = '\x0c'

/-- Model of JS `String.prototype.trim`: drop leading and trailing
whitespace (platform function used at route lines 30-31). -/
def jsTrim (s : String) : String :=
  String.mk (((s.data.dropWhile isSpaceChar).reverse.dropWhile isSpaceChar).reverse)

/-- Embedding of the `POST` handler up to and including building the
outbound request (lines 18-118): the API-key gate, field extraction with
trimming, input resolution, and prompt assembly. On success it returns
the data of the outbound call (assembled prompt and resolved video URL). -/
def postPipeline (validUrl : String → Bool) (apiKey : Option String)
    (videoField : Option FormValue) (urlRaw focusRaw : String) :
    Except ApiError (String × String) :=
  if keyPresent apiKey then
    let focusPrompt := jsTrim focusRaw
    let urlInput := jsTrim urlRaw
    match resolveVideo validUrl videoField urlInput with
    | .error e => .error e
    | .ok videoUrl => .ok (mergedPrompt focusPrompt, videoUrl)
  else .error .serverMisconfigured

/-- Whole-route behavior: a pipeline error becomes the corresponding
JSON error response without any upstream interaction; on success the
upstream call (modelled by the oracle `upstream`) is made and handled. -/
def fullPost (validUrl : String → Bool) (apiKey : Option String)
    (videoField : Option FormValue) (urlRaw focusRaw : String)
    (upstream : String × String → UpResponse) : PostResult :=
  match postPipeline validUrl apiKey videoField urlRaw focusRaw with
  | .error e => .jsonError e.status (errorMessage e) none
  | .ok req => handleUpstream (upstream req)

/-! ## Client-side summary/details derivation (`page.tsx` lines 357-373)

The client accumulates streamed text and derives the displayed pair by
`accumulated.split("\n")`: the summary is `parts[0]` with a literal
fallback when that is the empty string, the details are
`parts.slice(1).join("\n")` with a literal fallback when empty. We embed
JS `split`/`join` on `"\n"` at the character-list level. -/

/-- JS `text.split("\n")` on code points. -/
def splitNl : List Char → List (List Char)
  | [] => [[]]
  | c :: rest =>
      if c = '\n' then [] :: splitNl rest
      else
        match splitNl rest with
        | [] => [[c]]
        | p :: ps => (c :: p) :: ps

/-- JS `parts.join("\n")` on code points. -/
def joinNl : List (List Char) → List Char
  | [] => []
  | [p] => p
  | p :: ps => p ++ '\n' :: joinNl ps

/-- Fallback summary shown while the first line is empty. -/
def fallbackSummary : String := "AI analysis in progress..."

/-- Fallback details shown while the remainder is empty. -/
def fallbackDetails : String := "Generating detailed analysis..."

/-- Embedding of the split at `page.tsx` 366-372: `parts` from splitting
on newlines, summary `parts[0] || fallback`, details
`parts.slice(1).join("\n") || fallback`. -/
def deriveSummaryDetails (text : String) : String × String :=
  let parts := splitNl text.data
  let first := parts.headD []
  let summary := if first = [] then fallbackSummary else String.mk first
  let detailsChars := joinNl (parts.drop 1)
  let details := if detailsChars = [] then fallbackDetails else String.mk detailsChars
  (summary, details)

theorem splitNl_ne_nil : ∀ l : List Char, splitNl l ≠ [] := by
  intro l
  cases l with
  | nil => simp [splitNl]
  | cons c rest =>
      by_cases h : c = '\n'
      · simp [splitNl, h]
      · simp only [splitNl, if_neg h]
        cases hs : splitNl rest <;> simp

theorem splitNl_no_newline : ∀ l : List Char, '\n' ∉ l → splitNl l = [l] := by
  intro l
  induction l with
  | nil => intro _; rfl
  | cons c rest ih =>
      intro h
      have hc : c ≠ '\n' := fun hc => h (by simp [hc])
      have hrest : '\n' ∉ rest := fun hr => h (by simp [hr])
      simp only [splitNl, if_neg hc, ih hrest]

theorem splitNl_append (a b : List Char) (h : '\n' ∉ a) :
    splitNl (a ++ '\n' :: b) = a :: splitNl b := by
  induction a with
  | nil => simp [splitNl]
  | cons c a' ih =>
      have hc : c ≠ '\n' := fun hc => h (by simp [hc])
      have ha' : '\n' ∉ a' := fun hr => h (by simp [hr])
      simp only [List.cons_append, splitNl, if_neg hc, List.append_eq, ih ha']

theorem joinNl_splitNl : ∀ l : List Char, joinNl (splitNl l) = l := by
  intro l
  induction l with
  | nil => rfl
  | cons c rest ih =>
      by_cases hc : c = '\n'
      · subst hc
        simp only [splitNl, if_pos rfl]
        cases hs : splitNl rest with
        | nil => exact absurd hs (splitNl_ne_nil rest)
        | cons p ps =>
            rw [hs] at ih
            simp only [joinNl, List.nil_append]
            rw [ih]
      · simp only [splitNl, if_neg hc]
        cases hs : splitNl rest with
        | nil => exact absurd hs (splitNl_ne_nil rest)
        | cons p ps =>
            rw [hs] at ih
            cases ps with
            | nil => simpa [joinNl] using congrArg (c :: ·) ih
            | cons q qs =>
                simp only [joinNl, List.cons_append] at ih ⊢
                rw [ih]

/-! ## Claim theorems -/

/-- MIME type the data URL is built with (the `mime` let of
`fileToDataUrl`). -/
def dataUrlMime (f : FileModel) : String :=
  if f.declaredType = "" then "video/mp4" else f.declaredType

/-- The fixed `data:` + mime + `;base64,` head of the constructed data URL. -/
def dataUrlHead (f : FileModel) : String := "data:" ++ dataUrlMime f ++ ";base64,"

theorem fileToDataUrl_shape (f : FileModel) :
    fileToDataUrl f = dataUrlHead f ++ String.mk (base64Encode f.content) := rfl

/-- File branch of `resolveVideo` on a file passing both size checks. -/
theorem resolveVideo_file_ok (validUrl : String → Bool) (f : FileModel) (u : String)
    (h0 : ¬ f.content.length = 0) (h1 : ¬ f.content.length > maxBytes) :
    resolveVideo validUrl (some (.file f)) u = .ok (fileToDataUrl f) := by
  simp [resolveVideo, truthy, h0, h1]

/-- C4 (amended): a zero-length upload fails with `EmptyFile` (HTTP 400);
an upload strictly larger than the 100 MiB ceiling fails with `TooLarge`
(HTTP 413). A file of exactly 100 MiB passes the size check, since the
route tests `size > maxBytes`. -/
theorem normalize_size_checks (validUrl : String → Bool) (f : FileModel) (url : String) :
    (f.content.length = 0 →
      resolveVideo validUrl (some (.file f)) url = .error .emptyFile) ∧
    (f.content.length > maxBytes →
      resolveVideo validUrl (some (.file f)) url = .error .tooLarge) ∧
    ApiError.emptyFile.status = 400 ∧ ApiError.tooLarge.status = 413 := by
  refine ⟨?_, ?_, rfl, rfl⟩
  · intro h0
    simp [resolveVideo, truthy, h0]
  · intro hbig
    have h0 : ¬ f.content.length = 0 := by omega
    simp [resolveVideo, truthy, h0, hbig]

theorem normalize_size_checks_witness :
    resolveVideo (fun _ => true) (some (.file ⟨[], ""⟩)) "u" = .error .emptyFile ∧
    resolveVideo (fun _ => true)
        (some (.file ⟨List.replicate (100 * 1024 * 1024 + 1) 0, ""⟩)) "" =
      .error .tooLarge :=
  ⟨(normalize_size_checks _ _ _).1 rfl,
   (normalize_size_checks _ _ _).2.1
     (by rw [List.length_replicate]; unfold maxBytes; omega)⟩

/-- C4 counterexample: a file of exactly 100 MiB (at the ceiling) does not
fail with `TooLarge` — the claimed `at or above` is wrong at the
boundary. -/
theorem normalize_ceiling_counterexample :
    resolveVideo (fun _ => true)
        (some (.file ⟨List.replicate (100 * 1024 * 1024) 0, "video/mp4"⟩)) "" ≠
      .error .tooLarge := by
  have h := resolveVideo_file_ok (fun _ => true)
    ⟨List.replicate (100 * 1024 * 1024) 0, "video/mp4"⟩ ""
    (by rw [List.length_replicate]; omega)
    (by rw [List.length_replicate]; unfold maxBytes; omega)
  rw [h]
  intro hcon
  exact Except.noConfusion hcon

/-- C5: with a file present, the result is independent of the URL string
and of the URL validator (the URL is never syntax-checked), and a file
passing the size checks yields the embedded data URL derived from the
file. -/
theorem file_precedence (validUrl1 validUrl2 : String → Bool) (f : FileModel)
    (u1 u2 : String) :
    resolveVideo validUrl1 (some (.file f)) u1 = resolveVideo validUrl2 (some (.file f)) u2 ∧
    (0 < f.content.length → f.content.length ≤ maxBytes →
      resolveVideo validUrl1 (some (.file f)) u1 = .ok (fileToDataUrl f)) := by
  constructor
  · simp [resolveVideo, truthy]
  · intro h0 h1
    exact resolveVideo_file_ok validUrl1 f u1 (by omega) (by omega)

theorem file_precedence_witness :
    resolveVideo (fun _ => false) (some (.file ⟨[7], ""⟩)) "not a url" =
      .ok (fileToDataUrl ⟨[7], ""⟩) ∧
    resolveVideo (fun _ => false) (some (.file ⟨[7], ""⟩)) "not a url" =
      resolveVideo (fun _ => true) (some (.file ⟨[7], ""⟩)) "https://ok" :=
  ⟨(file_precedence (fun _ => false) (fun _ => false) ⟨[7], ""⟩ "not a url" "x").2
      (by decide) (by simp [maxBytes]),
   (file_precedence (fun _ => false) (fun _ => true) ⟨[7], ""⟩ "not a url" "https://ok").1⟩

/-- C6: a non-empty file within the ceiling resolves to the embedded data
URL, and the data URL round-trips — dropping the `data:` + mime + `;base64,`
head and base64-decoding the remainder restores the file bytes. -/
theorem embedded_roundtrip (validUrl : String → Bool) (f : FileModel) (url : String)
    (hbytes : ∀ b ∈ f.content, b < 256) (h0 : 0 < f.content.length)
    (h1 : f.content.length ≤ maxBytes) :
    resolveVideo validUrl (some (.file f)) url = .ok (fileToDataUrl f) ∧
    base64Decode ((fileToDataUrl f).data.drop (dataUrlHead f).length) = some f.content := by
  constructor
  · exact resolveVideo_file_ok validUrl f url (by omega) (by omega)
  · rw [fileToDataUrl_shape, String.data_append]
    have hlen : (dataUrlHead f).length = (dataUrlHead f).data.length := rfl
    rw [hlen, List.drop_left]
    exact base64Decode_base64Encode f.content hbytes

theorem embedded_roundtrip_witness :
    resolveVideo (fun _ => true) (some (.file ⟨[0, 255, 10], ""⟩)) "ignored" =
      .ok (fileToDataUrl ⟨[0, 255, 10], ""⟩) ∧
    base64Decode ((fileToDataUrl ⟨[0, 255, 10], ""⟩).data.drop
        (dataUrlHead ⟨[0, 255, 10], ""⟩).length) = some [0, 255, 10] := by
  have h := embedded_roundtrip (fun _ => true) ⟨[0, 255, 10], ""⟩ "ignored"
    (by decide) (by decide) (by simp [maxBytes])
  exact h

/-- C10 (amended): a non-empty plain-string `video` field suppresses the
missing-input check without being treated as a file: with a URL supplied
the URL branch runs, and with no URL the route fails with the residual
400 `Unable to resolve video input`. An empty-string `video` value is
falsy and behaves as an absent field. -/
theorem nonfile_video_field (validUrl : String → Bool) (s u : String) :
    (s ≠ "" → u = "" →
      resolveVideo validUrl (some (.str s)) u = .error .unresolvedInput) ∧
    (s ≠ "" → u ≠ "" →
      resolveVideo validUrl (some (.str s)) u =
        (if validUrl u then .ok u else .error .invalidUrl)) ∧
    (s = "" → resolveVideo validUrl (some (.str s)) u = resolveVideo validUrl none u) ∧
    ApiError.unresolvedInput.status = 400 := by
  refine ⟨?_, ?_, ?_, rfl⟩
  · intro hs hu
    simp [resolveVideo, truthy, hs, hu]
  · intro hs hu
    simp [resolveVideo, truthy, hs, hu]
  · intro hs
    subst hs
    simp [resolveVideo, truthy]

theorem nonfile_video_field_witness :
    resolveVideo (fun _ => true) (some (.str "v")) "" = .error .unresolvedInput ∧
    resolveVideo (fun _ => false) (some (.str "v")) "h t t p" = .error .invalidUrl := by
  refine ⟨(nonfile_video_field (fun _ => true) "v" "").1 (by decide) rfl, ?_⟩
  have h := (nonfile_video_field (fun _ => false) "v" "h t t p").2.1 (by decide) (by decide)
  simpa using h

/-- C10 counterexample: an empty-string `video` field is present but does
not suppress the missing-input check — with no URL the route returns
`MissingInput`, not the `Unable to resolve video input` error the claim
predicts for every non-file value. -/
theorem nonfile_video_field_counterexample :
    resolveVideo (fun _ => true) (some (.str "")) "" = .error .missingInput ∧
    resolveVideo (fun _ => true) (some (.str "")) "" ≠ .error .unresolvedInput := by
  constructor
  · simp [resolveVideo, truthy]
  · simp [resolveVideo, truthy]

/-- C1 (amended): past the status check, the consumer observes exactly the
incrementally decoded/re-encoded upstream chunks in order; a normal
upstream end closes the stream and an upstream read error leaves the
stream in the observable errored state — never a silent normal end. When
every chunk is by itself complete well-formed UTF-8 (e.g. ASCII event
data), the observed chunks are the upstream chunks unchanged. -/
theorem relay_stream_spec (chunks : List (List Nat)) :
    relayLoop [] chunks .normalDone = (downstreamChunks [] chunks, .closed) ∧
    relayLoop [] chunks .readError = (downstreamChunks [] chunks, .errored) ∧
    ((∀ c ∈ chunks, utf8ValidB c = true) →
      relayLoop [] chunks .normalDone = (chunks, .closed) ∧
      relayLoop [] chunks .readError = (chunks, .errored)) := by
  refine ⟨relayLoop_done [] chunks, relayLoop_error [] chunks, ?_⟩
  intro hv
  rw [relayLoop_done [] chunks, relayLoop_error [] chunks, downstreamChunks_valid chunks hv]
  exact ⟨rfl, rfl⟩

theorem relay_stream_spec_witness :
    relayLoop [] [[72, 105]] .normalDone = ([[72, 105]], .closed) ∧
    relayLoop [] [[72, 105]] .readError = ([[72, 105]], .errored) :=
  (relay_stream_spec [[72, 105]]).2.2 (by decide)

/-- C1 counterexample: a two-byte UTF-8 character split across two
upstream chunks is re-chunked by the relay — the consumer sees an empty
first chunk and both bytes in the second, not the original two chunks. -/
theorem relay_chunking_counterexample :
    relayLoop [] [[195], [169]] .normalDone = ([[], [195, 169]], .closed) ∧
    ([[], [195, 169]] : List (List Nat)) ≠ [[195], [169]] := by decide

/-- C2 (amended): whenever the full upstream byte sequence is well-formed
UTF-8, the bytes delivered to the caller are, in order, exactly the
upstream bytes, for either stream ending; the relay decode/re-encode is
transparent only on well-formed input. -/
theorem relay_bytes_verbatim (chunks : List (List Nat)) (e : UpEnd)
    (hv : utf8ValidB chunks.flatten = true) :
    ((relayLoop [] chunks e).1).flatten = chunks.flatten := by
  have hj := downstreamChunks_join chunks [] rfl (by simpa using hv)
  cases e with
  | normalDone => rw [relayLoop_done]; simpa using hj
  | readError => rw [relayLoop_error]; simpa using hj

theorem relay_bytes_verbatim_witness :
    ((relayLoop [] [[100, 97], [116, 97]] .normalDone).1).flatten = [100, 97, 116, 97] :=
  (relay_bytes_verbatim [[100, 97], [116, 97]] .normalDone (by decide)).trans (by decide)

/-- C2 counterexample: an invalid upstream byte `0xFF` is not forwarded
verbatim — the relay delivers the UTF-8 replacement character bytes
`EF BF BD` instead. -/
theorem relay_bytes_counterexample :
    ((relayLoop [] [[255]] .normalDone).1).flatten = [239, 191, 189] ∧
    ((relayLoop [] [[255]] .normalDone).1).flatten ≠ ([[255]] : List (List Nat)).flatten := by
  decide

/-- C3: a non-2xx upstream status yields the 502 JSON error whose details
carry the best-effort body text (falling back to a string naming the
provider status when the body text is empty or unavailable), and the
result is never a stream — no frame is emitted. -/
theorem upstream_error_clean (res : UpResponse)
    (h : ¬ (200 ≤ res.status ∧ res.status < 300)) :
    handleUpstream res = .jsonError 502 upstreamFailMsg
      (some (if res.bodyText.getD "" = "" then "Status " ++ toString res.status
             else res.bodyText.getD "")) ∧
    ∀ cs en, handleUpstream res ≠ .streamResp cs en := by
  constructor
  · simp [handleUpstream, h]
  · intro cs en
    simp [handleUpstream, h]

theorem upstream_error_clean_witness :
    handleUpstream ⟨503, some "busy", [[72]], .normalDone⟩ =
      .jsonError 502 upstreamFailMsg (some "busy") ∧
    handleUpstream ⟨503, none, [], .normalDone⟩ =
      .jsonError 502 upstreamFailMsg (some ("Status " ++ toString 503)) := by
  constructor
  · have h := (upstream_error_clean ⟨503, some "busy", [[72]], .normalDone⟩ (by decide)).1
    simpa using h
  · have h := (upstream_error_clean ⟨503, none, [], .normalDone⟩ (by decide)).1
    simpa using h

/-- C9: when the API key is untruthy the route answers 500
`ServerMisconfigured` regardless of every other input — before any
normalization; and whenever the pipeline fails validation, the response
is that error and is independent of the upstream oracle, i.e. no outbound
call is observable. -/
theorem validation_before_upstream (validUrl : String → Bool) (apiKey : Option String)
    (videoField : Option FormValue) (urlRaw focusRaw : String)
    (up1 up2 : String × String → UpResponse) :
    (keyPresent apiKey = false →
      fullPost validUrl apiKey videoField urlRaw focusRaw up1 =
        .jsonError 500 (errorMessage .serverMisconfigured) none) ∧
    (∀ e : ApiError,
      postPipeline validUrl apiKey videoField urlRaw focusRaw = .error e →
      fullPost validUrl apiKey videoField urlRaw focusRaw up1 =
        .jsonError e.status (errorMessage e) none ∧
      fullPost validUrl apiKey videoField urlRaw focusRaw up1 =
        fullPost validUrl apiKey videoField urlRaw focusRaw up2) := by
  constructor
  · intro hk
    simp [fullPost, postPipeline, hk, ApiError.status]
  · intro e he
    constructor
    · simp [fullPost, he]
    · simp [fullPost, he]

theorem validation_before_upstream_witness :
    fullPost (fun _ => true) none (some (.str "x")) "u" "f"
        (fun _ => ⟨200, none, [], .normalDone⟩) =
      .jsonError 500 (errorMessage .serverMisconfigured) none ∧
    fullPost (fun _ => true) (some "k") none "" ""
        (fun _ => ⟨200, none, [], .normalDone⟩) =
      fullPost (fun _ => true) (some "k") none "" ""
        (fun _ => ⟨503, some "x", [[1]], .readError⟩) :=
  ⟨(validation_before_upstream (fun _ => true) none (some (.str "x")) "u" "f"
      (fun _ => ⟨200, none, [], .normalDone⟩) (fun _ => ⟨200, none, [], .normalDone⟩)).1 rfl,
   ((validation_before_upstream (fun _ => true) (some "k") none "" ""
      (fun _ => ⟨200, none, [], .normalDone⟩)
      (fun _ => ⟨503, some "x", [[1]], .readError⟩)).2 .missingInput (by decide)).2⟩

/-! ### C7: focus-dependent prompt assembly -/

/-- Phrase of the default suffix named by the claim. -/
def defaultPhrase : String := "infer the most valuable insights"

/-- Fixed text opening the focus clause, used to state that no focus
clause is present. -/
def focusMarker : String := " The user has an additional focus:"

/-- Prompt text before the opening quote of the focus. -/
def promptPreQuote : String := baseInstruction ++ " The user has an additional focus: "

/-- Prompt text after the closing quote of the focus. -/
def promptPostQuote : String :=
  ". Prioritize this focus in your analysis while still covering core observations."

theorem mergedPrompt_data_shape (focus : String) (h : focus ≠ "") :
    (mergedPrompt focus).data =
      promptPreQuote.data ++ '"' :: (focus.data ++ '"' :: promptPostQuote.data) := by
  have h1 : mergedPrompt focus =
      baseInstruction ++ (focusClauseHead ++ focus ++ focusClauseTail) := by
    simp [mergedPrompt, h]
  rw [h1]
  simp only [String.data_append]
  rw [show focusClauseHead.data =
        (" The user has an additional focus: ").data ++ ['"'] from rfl,
    show focusClauseTail.data = '"' :: promptPostQuote.data from rfl,
    show promptPreQuote.data =
        baseInstruction.data ++ (" The user has an additional focus: ").data from
      by simp [promptPreQuote, String.data_append]]
  simp [List.append_assoc]

/-- C7 (amended): prompt assembly is a pure function of the focus string;
a non-empty focus puts the quoted focus text into the prompt and, as long
as the focus text does not itself contain the phrase `infer the most
valuable insights`, the prompt does not contain that default phrase; an
empty focus yields the default suffix and no focus clause. -/
theorem mergedPrompt_focus_spec (focus : String) :
    (focus ≠ "" →
      containsStr (mergedPrompt focus) ("\"" ++ focus ++ "\"") = true ∧
      (containsStr focus defaultPhrase = false →
        containsStr (mergedPrompt focus) defaultPhrase = false)) ∧
    (focus = "" →
      containsStr (mergedPrompt focus) defaultPhrase = true ∧
      containsStr (mergedPrompt focus) focusMarker = false) := by
  constructor
  · intro h
    have hdata := mergedPrompt_data_shape focus h
    constructor
    · unfold containsStr
      rw [hdata,
        show ("\"" ++ focus ++ "\"").data = '"' :: (focus.data ++ ['"']) from
          by simp [String.data_append]]
      exact (hasSub_iff _ _).2
        ⟨promptPreQuote.data, promptPostQuote.data, by simp [List.append_assoc]⟩
    · intro hnc
      apply Bool.eq_false_iff.2
      intro hb
      unfold containsStr at hb hnc
      rw [hdata] at hb
      have hq : '"' ∉ defaultPhrase.data := by decide
      rcases hasSub_append_mid hq hb with h1 | h2
      · exact absurd h1 (by decide)
      · rcases hasSub_append_mid hq h2 with h3 | h4
        · rw [hnc] at h3
          exact absurd h3 (by decide)
        · exact absurd h4 (by decide)
  · intro h
    subst h
    exact ⟨by decide, by decide⟩

theorem mergedPrompt_focus_witness :
    containsStr (mergedPrompt "analyze footwork") ("\"" ++ "analyze footwork" ++ "\"") = true ∧
    containsStr (mergedPrompt "analyze footwork") defaultPhrase = false ∧
    containsStr (mergedPrompt "") defaultPhrase = true := by
  have h1 := (mergedPrompt_focus_spec "analyze footwork").1 (by decide)
  have h2 := (mergedPrompt_focus_spec "").2 rfl
  exact ⟨h1.1, h1.2 (by decide), h2.1⟩

/-- C7 counterexample: with the focus set to the default phrase itself —
non-empty, trim-invariant — the assembled prompt does contain `infer the
most valuable insights`, refuting the claimed unconditional
non-containment for non-empty focus. -/
theorem mergedPrompt_focus_counterexample :
    defaultPhrase ≠ "" ∧
    containsStr (mergedPrompt defaultPhrase) defaultPhrase = true :=
  ⟨by decide, by decide⟩

/-- C8 (amended): the derivation splits the raw text at the first newline:
with no newline the summary is the text itself (or the literal progress
fallback when the text is empty) and the details are the literal fallback
`Generating detailed analysis...`, not the raw text; with a newline the
summary is the first line (fallback only when that line is exactly empty,
no trimming) and the details are everything after the first newline,
untrimmed (fallback when empty). -/
theorem deriveSummaryDetails_spec (a b : List Char) (ha : '\n' ∉ a) :
    deriveSummaryDetails (String.mk (a ++ '\n' :: b)) =
      ((if a = [] then fallbackSummary else String.mk a),
       (if b = [] then fallbackDetails else String.mk b)) ∧
    deriveSummaryDetails (String.mk a) =
      ((if a = [] then fallbackSummary else String.mk a), fallbackDetails) := by
  constructor
  · simp only [deriveSummaryDetails]
    rw [splitNl_append a b ha]
    simp [joinNl_splitNl]
  · simp only [deriveSummaryDetails]
    rw [splitNl_no_newline a ha]
    simp [joinNl]

theorem deriveSummaryDetails_spec_witness :
    deriveSummaryDetails (String.mk ("Line one".data ++ '\n' :: "Line two\nLine three".data)) =
      ("Line one", "Line two\nLine three") := by
  have h := (deriveSummaryDetails_spec "Line one".data "Line two\nLine three".data
    (by decide)).1
  rw [h]
  decide

/-- C8 counterexample: on the single-line input `Hello` the details are
the literal fallback string, not the full raw text as the claim states. -/
theorem deriveSummaryDetails_counterexample :
    (deriveSummaryDetails "Hello").1 = "Hello" ∧
    (deriveSummaryDetails "Hello").2 = fallbackDetails ∧
    (deriveSummaryDetails "Hello").2 ≠ "Hello" := by decide

end VideoOr
